import Mathlib

/-!
Verification of the mediocre-api auth core: the `sig` signing primitive, the
`apitok` time-debt rate limiter with its in-memory store, the `usertok` user
tokens, and the `auth` request gate, shallowly embedded from the Go sources.

Go byte strings (`[]byte` and `string` alike) are modelled as `List Nat` with
entries below 256; Go `time.Time` values are modelled as `Nat` (nanoseconds
since an epoch, `0` being Go's zero time); Go `time.Duration` / `int64`
arithmetic is modelled on `Int`, using truncating division `Int.tdiv` where Go
divides. Wall-clock reads (`time.Now()`) become explicit `now` parameters.
-/

set_option autoImplicit false

/-- ASCII codes of Go's `encoding/base64` StdEncoding alphabet
(`A`–`Z`, `a`–`z`, `0`–`9`, `+`, `/`). -/
def b64Alphabet : List Nat :=
  (List.range 26).map (· + 65) ++ (List.range 26).map (· + 97) ++
    (List.range 10).map (· + 48) ++ [43, 47]

/-- The alphabet character for a 6-bit value. -/
def b64Idx (i : Nat) : Nat := b64Alphabet.getD i 0

/-- The 6-bit value of an alphabet character, `none` for a byte outside the
alphabet. -/
def b64DecVal (c : Nat) : Option Nat := b64Alphabet.indexOf? c

/-- Base64-encode a block of one, two or three bytes into four characters,
padding with `=` (ASCII 61), as Go's StdEncoding does. -/
def b64EncodeChunk : List Nat → List Nat
  | [a] => [b64Idx (a / 4), b64Idx (a % 4 * 16), 61, 61]
  | [a, b] => [b64Idx (a / 4), b64Idx (a % 4 * 16 + b / 16), b64Idx (b % 16 * 4), 61]
  | [a, b, c] =>
      [b64Idx (a / 4), b64Idx (a % 4 * 16 + b / 16), b64Idx (b % 16 * 4 + c / 64),
        b64Idx (c % 64)]
  | _ => []

/-- Model of Go `base64.StdEncoding.EncodeToString` on a byte list. -/
def b64Encode : List Nat → List Nat
  | [] => []
  | [a] => b64EncodeChunk [a]
  | [a, b] => b64EncodeChunk [a, b]
  | a :: b :: c :: rest => b64EncodeChunk [a, b, c] ++ b64Encode rest

/-- Model of Go `base64.StdEncoding.DecodeString`: four characters at a time,
`=` padding only in the final block, `none` on any malformed input. -/
def b64Decode : List Nat → Option (List Nat)
  | [] => some []
  | c1 :: c2 :: c3 :: c4 :: rest =>
    match b64DecVal c1, b64DecVal c2 with
    | some v1, some v2 =>
      if c3 = 61 then
        if c4 = 61 ∧ rest = [] then some [v1 * 4 + v2 / 16] else none
      else
        match b64DecVal c3 with
        | some v3 =>
          if c4 = 61 then
            if rest = [] then some [v1 * 4 + v2 / 16, v2 % 16 * 16 + v3 / 4] else none
          else
            match b64DecVal c4 with
            | some v4 =>
              match b64Decode rest with
              | some ds =>
                  some ((v1 * 4 + v2 / 16) :: (v2 % 16 * 16 + v3 / 4) ::
                    (v3 % 4 * 64 + v4) :: ds)
              | none => none
            | none => none
        | none => none
    | _, _ => none
  | _ => none

/-- Model of Go `strings.IndexByte(s, ':')` followed by slicing `s[:i]` and
`s[i+1:]`: splits at the first colon (ASCII 58), `none` when there is none. -/
def splitColon : List Nat → Option (List Nat × List Nat)
  | [] => none
  | c :: rest =>
    if c = 58 then some ([], rest)
    else
      match splitColon rest with
      | some (x, y) => some (c :: x, y)
      | none => none

/-- Little-endian base-256 serialization of a `Nat` into `k` bytes. -/
def natToBytesLE : Nat → Nat → List Nat
  | 0, _ => []
  | k + 1, t => t % 256 :: natToBytesLE k (t / 256)

/-- Value of a little-endian byte list. -/
def bytesToNatLE : List Nat → Nat
  | [] => 0
  | b :: rest => b + 256 * bytesToNatLE rest

/-- Go time.Time.MarshalBinary is an external primitive; it is modelled as a
fixed-width (16-byte) injective little-endian serialization of the timestamp.
The zero time (`0`) serializes like any other value and round-trips. -/
def timeMarshal (t : Nat) : List Nat := natToBytesLE 16 t

/-- Model of Go `time.Time.UnmarshalBinary`: inverse of `timeMarshal`,
rejecting byte strings of the wrong shape. -/
def timeUnmarshal (bs : List Nat) : Option Nat :=
  if bs.length = 16 then some (bytesToNatLE bs) else none

/-- HMAC-SHA1 (`crypto/hmac` over `crypto/sha1`) is an external primitive; it
is modelled as a deterministic function of the secret and message producing a
20-byte digest. The theorems below rely only on determinism and on the digest
bytes being below 256. -/
def hmacSha1 (secret msg : List Nat) : List Nat :=
  (List.range 20).map fun i =>
    (msg.foldl (fun acc b => acc * 131 + b + 1)
      (secret.foldl (fun acc b => acc * 131 + b + 1) i + i)) % 256

namespace sig

/-- Model of `sig.New` (src/auth/sig/sig.go): signs `data` with `secret`,
valid for `timeout` (no expiry when `timeout <= 0`), at wall-clock `now`.
Produces `base64(data) ++ ":" ++ base64(expiresB) ++ ":" ++ base64(hmac)`. -/
def New (data secret : List Nat) (timeout : Int) (now : Nat) : List Nat :=
  let expires : Nat := if timeout > 0 then now + timeout.toNat else 0
  let expiresB := timeMarshal expires
  let sum := hmacSha1 secret (data ++ expiresB)
  b64Encode data ++ 58 :: (b64Encode expiresB ++ 58 :: b64Encode sum)

/-- Model of `sig.Extract` (src/auth/sig/sig.go): splits on the first two
colons, base64-decodes each segment, rejects a non-zero expiry in the past,
recomputes the MAC over `data ++ expiresB` and compares; returns the payload
only on full success. -/
def Extract (s secret : List Nat) (now : Nat) : Option (List Nat) :=
  match splitColon s with
  | none => none
  | some (data64, rest) =>
    match b64Decode data64 with
    | none => none
    | some data =>
      match splitColon rest with
      | none => none
      | some (expires64, sum64) =>
        match b64Decode expires64 with
        | none => none
        | some expiresB =>
          match timeUnmarshal expiresB with
          | none => none
          | some expires =>
            if expires ≠ 0 ∧ now > expires then none
            else
              match b64Decode sum64 with
              | none => none
              | some sum =>
                if hmacSha1 secret (data ++ expiresB) = sum then some data
                else none

/-- Model of `sig.Verify`: `Extract(sig, secret) != nil`. -/
def Verify (s secret : List Nat) (now : Nat) : Bool :=
  (Extract s secret now).isSome

end sig

namespace apitok

/-- Outcomes of `CanUse`/`CanUseRaw` (src/auth/apitok/apitok.go). -/
inductive UseResult where
  | Success
  | TokenInvalid
  | RateLimited
deriving DecidableEq, Repr

/-- One bucket: value (int64 nanoseconds, may be negative) and last-modified
timestamp (src/auth/apitok/getset.go `keyval`). -/
structure keyval where
  val : Int
  tsMod : Nat
deriving DecidableEq, Repr

/-- Model of `RateLimitMem` (src/auth/apitok/getset.go): the Go
`map[string]keyval` is modelled as an association list; a missing key reads as
the zero `keyval` exactly as a Go map read does. The mutex is irrelevant to the
sequential semantics modelled here. -/
structure RateLimitMem where
  m : List (List Nat × keyval)
deriving DecidableEq, Repr

/-- Model of `NewRateLimitMem`. -/
def NewRateLimitMem : RateLimitMem := ⟨[]⟩

/-- Go map read `m.m[key]`: the stored `keyval`, or the zero value. -/
def RateLimitMem.read (mem : RateLimitMem) (key : List Nat) : keyval :=
  match mem.m.find? (fun p => p.1 == key) with
  | some p => p.2
  | none => ⟨0, 0⟩

/-- Go map write `m.m[key] = kv`. -/
def RateLimitMem.write (mem : RateLimitMem) (key : List Nat) (kv : keyval) :
    RateLimitMem :=
  ⟨(key, kv) :: mem.m.filter (fun p => !(p.1 == key))⟩

/-- Model of `RateLimitMem.IncrByCeil`: adds `amount` to the key's value
(0 if unseen), caps at `max`, stores the result with `tsMod = now`, and
returns the post-cap value and whether clamping occurred. -/
def RateLimitMem.IncrByCeil (mem : RateLimitMem) (key : List Nat)
    (amount max : Int) (now : Nat) : (Int × Bool) × RateLimitMem :=
  let newAmount := (mem.read key).val + amount
  if newAmount > max then ((max, true), mem.write key ⟨max, now⟩)
  else ((newAmount, false), mem.write key ⟨newAmount, now⟩)

/-- Model of `RateLimitMem.DecrBy`: subtracts `amount` (the value may go
negative) and stores the result with `tsMod = now`. -/
def RateLimitMem.DecrBy (mem : RateLimitMem) (key : List Nat) (amount : Int)
    (now : Nat) : Int × RateLimitMem :=
  let newAmount := (mem.read key).val - amount
  (newAmount, mem.write key ⟨newAmount, now⟩)

/-- Model of `RateLimitMem.Get`: the key's value, 0 if unseen; does not touch
`tsMod`. -/
def RateLimitMem.Get (mem : RateLimitMem) (key : List Nat) : Int :=
  (mem.read key).val

/-- Model of `RateLimitMem.LastModified`: the key's `tsMod`, the zero time
(0) if unseen. -/
def RateLimitMem.LastModified (mem : RateLimitMem) (key : List Nat) : Nat :=
  (mem.read key).tsMod

/-- Model of `apitok.RateLimiter` (src/auth/apitok/apitok.go): durations in
int64 nanoseconds. The `Backend` field is passed explicitly as a
`RateLimitMem` argument to each operation. -/
structure RateLimiter where
  Capacity : Int
  Interval : Int
  PerInterval : Int
deriving DecidableEq, Repr

/-- Model of `NewRateLimiter`: Capacity 30s, Interval 5s, PerInterval 5s. -/
def NewRateLimiter : RateLimiter :=
  ⟨30 * 1000000000, 5 * 1000000000, 5 * 1000000000⟩

/-- Model of `RateLimiter.CanUseRaw`: computes the whole refill ticks elapsed
since the bucket's `lastModified` (Go int64 division, truncating), refills via
`IncrByCeil` when the refill amount is positive, otherwise reads the value
without touching `lastModified`; `RateLimited` exactly when the resulting
value is `<= 0`. -/
def RateLimiter.CanUseRaw (r : RateLimiter) (mem : RateLimitMem)
    (identifier : List Nat) (now : Nat) : UseResult × RateLimitMem :=
  let lm := mem.LastModified identifier
  let since : Int := (now : Int) - (lm : Int)
  let toAdd := (Int.tdiv since r.Interval) * r.PerInterval
  let res :=
    if toAdd > 0 then
      let incr := mem.IncrByCeil identifier toAdd r.Capacity now
      (incr.1.1, incr.2)
    else (mem.Get identifier, mem)
  if res.1 ≤ 0 then (UseResult.RateLimited, res.2)
  else (UseResult.Success, res.2)

/-- Model of `RateLimiter.CanUse`: verifies the token with `sig.Verify`
first; an invalid token short-circuits to `TokenInvalid` before any backend
access. -/
def RateLimiter.CanUse (r : RateLimiter) (mem : RateLimitMem)
    (token secret : List Nat) (now : Nat) : UseResult × RateLimitMem :=
  if !(sig.Verify token secret now) then (UseResult.TokenInvalid, mem)
  else r.CanUseRaw mem token now

/-- Model of `RateLimiter.Use`: unconditionally removes `toRemove` from the
identifier's bucket via `DecrBy`. -/
def RateLimiter.Use (_r : RateLimiter) (mem : RateLimitMem)
    (identifier : List Nat) (toRemove : Int) (now : Nat) : RateLimitMem :=
  (mem.DecrBy identifier toRemove now).2

end apitok

namespace usertok

/-- Model of `usertok.New` (src/auth/usertok/usertok.go): the 16 random bytes
from the external CSPRNG are an explicit `nonce` parameter; the payload is
`base64(user) ++ ":" ++ base64(nonce)`, signed with a 48-hour ttl. -/
def New (user secret nonce : List Nat) (now : Nat) : List Nat :=
  let data := b64Encode user ++ 58 :: b64Encode nonce
  sig.New data secret (48 * 3600 * 1000000000) now

/-- Model of `usertok.ExtractUser`: `sig.Extract`, then `bytes.SplitN` on the
first colon (fewer than two parts fails), then base64-decode of the first
part. The empty list plays Go's empty string "not authenticated". -/
def ExtractUser (userTok secret : List Nat) (now : Nat) : List Nat :=
  match sig.Extract userTok secret now with
  | none => []
  | some data =>
    match splitColon data with
    | none => []
    | some (p0, _) =>
      match b64Decode p0 with
      | none => []
      | some userB => userB

end usertok

namespace auth

/-- Model of `common.ExpectedErr` (the common package). -/
structure ExpectedErr where
  Code : Nat
  Err : String
deriving DecidableEq, Repr

def ErrAPITokenMissing : ExpectedErr := ⟨400, "api token missing"⟩
def ErrAPITokenInvalid : ExpectedErr := ⟨400, "api token invalid"⟩
def ErrAPITokenRateLimited : ExpectedErr := ⟨420, "chill bro"⟩
def ErrIPAddrRateLimited : ExpectedErr := ⟨420, "chill bro"⟩
def ErrUserTokenMissing : ExpectedErr := ⟨400, "user token missing"⟩
def ErrUserTokenInvalid : ExpectedErr := ⟨400, "user token invalid"⟩
def ErrSecretNotSet : ExpectedErr := ⟨500, "secret not set on server"⟩
def ErrUnknownProblem : ExpectedErr := ⟨500, "unknown problem"⟩

/-- HandlerFlag values (src/auth/api.go): `Default = 0`, then `1 << iota`
with `iota` starting at 1. -/
def IPRateLimited : Nat := 2
def NoAPITokenRequired : Nat := 4
def RequireUserAuthGet : Nat := 8
def RequireUserAuthPost : Nat := 16
def RequireUserAuthPut : Nat := 32
def RequireUserAuthHead : Nat := 64
def RequireUserAuthDelete : Nat := 128
def RequireUserAuthAlways : Nat :=
  RequireUserAuthGet ||| RequireUserAuthPost ||| RequireUserAuthPut |||
    RequireUserAuthHead ||| RequireUserAuthDelete

/-- An inbound request as the gate consumes it: method, `RemoteAddr`
(`ip:port` bytes), the two token headers (`[]` when unset), and the parsed
query (`url.Values`: each key with its ordered value list). -/
structure Request where
  Method : String
  RemoteAddr : List Nat
  apiTokenHeader : List Nat
  userTokenHeader : List Nat
  query : List (String × List (List Nat))
deriving DecidableEq, Repr

/-- Model of `url.Values.Add`: appends the value to the slice for the key,
creating the key if absent. -/
def queryAdd (q : List (String × List (List Nat))) (key : String)
    (v : List Nat) : List (String × List (List Nat)) :=
  match q with
  | [] => [(key, [v])]
  | (k, vs) :: rest =>
    if k = key then (k, vs ++ [v]) :: rest else (k, vs) :: queryAdd rest key v

/-- The ordered value slice of a query key (empty when absent). -/
def queryValues (q : List (String × List (List Nat))) (key : String) :
    List (List Nat) :=
  match q.find? (fun p => p.1 == key) with
  | some p => p.2
  | none => []

/-- Model of `r.RemoteAddr[:strings.LastIndex(r.RemoteAddr, ":")]`: everything
before the last colon. (Go would panic when no colon is present; the gate only
ever sees `ip:port` addresses from net/http.) -/
def takeBeforeLastColon (s : List Nat) : List Nat :=
  ((s.reverse.dropWhile (fun c => c != 58)).drop 1).reverse

/-- Model of `authHandler.requiresUserAuth` (src/auth/api.go). -/
def requiresUserAuth (flags : Nat) (method : String) : Bool :=
  if flags &&& RequireUserAuthAlways == RequireUserAuthAlways then true
  else
    match method with
    | "GET" => flags &&& RequireUserAuthGet != 0
    | "POST" => flags &&& RequireUserAuthPost != 0
    | "PUT" => flags &&& RequireUserAuthPut != 0
    | "HEAD" => flags &&& RequireUserAuthHead != 0
    | "DELETE" => flags &&& RequireUserAuthDelete != 0
    | _ => false

/-- Model of `authHandler.authdUser` (src/auth/api.go): no secret is a 500,
a missing user-token header a 400, a failed extraction a 400; otherwise the
verified username. -/
def authdUser (secret : Option (List Nat)) (r : Request) (now : Nat) :
    Except ExpectedErr (List Nat) :=
  match secret with
  | none => .error ErrSecretNotSet
  | some sec =>
    if r.userTokenHeader = [] then .error ErrUserTokenMissing
    else
      let user := usertok.ExtractUser r.userTokenHeader sec now
      if user = [] then .error ErrUserTokenInvalid
      else .ok user

/-- What one pass of `authHandler.ServeHTTP` did, up to the point the wrapped
handler runs: either a rejection (with the store as the quota step left it),
or an admission recording the identifier the quota step checked (`none` when
no quota check ran), the source's `token` variable (`[]` means the post-charge
is skipped), the request as the wrapped handler sees it, and the store. -/
inductive GateStep where
  | reject (e : ExpectedErr) (mem : apitok.RateLimitMem)
  | allow (checked : Option (List Nat)) (token : List Nat) (r : Request)
      (mem : apitok.RateLimitMem)
deriving DecidableEq, Repr

/-- Steps 3–4 of `ServeHTTP` (user resolution and query propagation), shared
by every admission path. -/
def afterQuota (flags : Nat) (secret : Option (List Nat))
    (checked : Option (List Nat)) (token : List Nat) (r : Request)
    (mem : apitok.RateLimitMem) (now : Nat) : GateStep :=
  match authdUser secret r now with
  | .error err =>
    if requiresUserAuth flags r.Method then .reject err mem
    else .allow checked token r mem
  | .ok user =>
    .allow checked token { r with query := queryAdd r.query "_asUser" user } mem

/-- Model of `authHandler.ServeHTTP` (src/auth/api.go) up to the wrapped
handler call: the IP branch checks `CanUseRaw` on the address with the port
stripped but sets `token` to the full `RemoteAddr`; the api-token branch runs
only when the flag does not waive it AND a secret is configured. -/
def ServeHTTP (flags : Nat) (secret : Option (List Nat))
    (rl : apitok.RateLimiter) (mem : apitok.RateLimitMem) (r : Request)
    (now : Nat) : GateStep :=
  if flags &&& IPRateLimited != 0 then
    let remoteIP := takeBeforeLastColon r.RemoteAddr
    match rl.CanUseRaw mem remoteIP now with
    | (apitok.UseResult.Success, mem2) =>
        afterQuota flags secret (some remoteIP) r.RemoteAddr r mem2 now
    | (apitok.UseResult.RateLimited, mem2) => .reject ErrIPAddrRateLimited mem2
    | (apitok.UseResult.TokenInvalid, mem2) => .reject ErrUnknownProblem mem2
  else if flags &&& NoAPITokenRequired == 0 && secret.isSome then
    let apiToken := r.apiTokenHeader
    if apiToken = [] then .reject ErrAPITokenMissing mem
    else
      match rl.CanUse mem apiToken (secret.getD []) now with
      | (apitok.UseResult.Success, mem2) =>
          afterQuota flags secret (some apiToken) apiToken r mem2 now
      | (apitok.UseResult.TokenInvalid, mem2) => .reject ErrAPITokenInvalid mem2
      | (apitok.UseResult.RateLimited, mem2) =>
          .reject ErrAPITokenRateLimited mem2
  else
    afterQuota flags secret none [] r mem now

/-- The post-charge tail of `ServeHTTP`: after the wrapped handler ran for
`elapsed` nanoseconds, `RateLimiter.Use(token, elapsed)` is called iff the
`token` variable was set. Rejections never reach this code. -/
def postCharge (rl : apitok.RateLimiter) (g : GateStep) (elapsed : Int)
    (now2 : Nat) : apitok.RateLimitMem :=
  match g with
  | .reject _ mem => mem
  | .allow _ token _ mem =>
    if token ≠ [] then rl.Use mem token elapsed now2 else mem

end auth

namespace oldsig

/-- Model of the earlier `sig.New` revision (src/api/sig/sig.go): no expiry
segment, just `base64(data) ++ ":" ++ base64(hmac)`. -/
def New (data secret : List Nat) : List Nat :=
  b64Encode data ++ 58 :: b64Encode (hmacSha1 secret data)

/-- Model of the earlier `sig.Extract` revision (src/api/sig/sig.go): splits
at the first colon, decodes both segments, constant-time-compares the MAC. -/
def Extract (s secret : List Nat) : Option (List Nat) :=
  match splitColon s with
  | none => none
  | some (data64, sum64) =>
    match b64Decode data64 with
    | none => none
    | some data =>
      match b64Decode sum64 with
      | none => none
      | some sum =>
        if hmacSha1 secret data = sum then some data else none

end oldsig

namespace oldapitok

/-- Outcomes of the earlier `RateLimiter.Use` revision (src/api/sig/sig.go,
older apitok revision): it has the extra `TokenExpired` variant. -/
inductive UseResult where
  | Success
  | TokenInvalid
  | TokenExpired
  | RateLimited
deriving DecidableEq, Repr

/-- Payload of an api token in the older revision: `{UUID, TS}`
(src/api/apitok `apiTokData`). The UUID is modelled as a Nat. -/
structure apiTokData where
  UUID : Nat
  TS : Nat
deriving DecidableEq, Repr

/-- Go json.Marshal of `apiTokData` is an external primitive
(`encoding/json`); it is modelled as an injective fixed-width byte
serialization of the two fields. -/
def jsonMarshalTok (d : apiTokData) : List Nat :=
  natToBytesLE 16 d.UUID ++ natToBytesLE 16 d.TS

/-- Model of `json.Unmarshal` into `apiTokData`: inverse of
`jsonMarshalTok`, failing on byte strings of the wrong shape. -/
def jsonUnmarshalTok (bs : List Nat) : Option apiTokData :=
  if bs.length = 32 then
    some ⟨bytesToNatLE (bs.take 16), bytesToNatLE (bs.drop 16)⟩
  else none

/-- Model of the older in-memory store's `DecrBy(key, amount, min)`
(src/api/apitok/getset.go): subtract, but clamp at `min`, reporting whether
clamping occurred. Reuses the current store representation. -/
def memDecrByFloor (mem : apitok.RateLimitMem) (key : List Nat)
    (amount min : Int) (now : Nat) : (Int × Bool) × apitok.RateLimitMem :=
  let newAmount := (mem.read key).val - amount
  if newAmount < min then ((min, true), mem.write key ⟨min, now⟩)
  else ((newAmount, false), mem.write key ⟨newAmount, now⟩)

/-- Model of the older `RateLimiter` (src/api/sig/sig.go, older apitok
revision): pass counts for `Capacity`/`PerInterval`, durations (ns) for
`Interval` and the independent `TokenTimeout` max token age. -/
structure RateLimiter where
  Capacity : Int
  Interval : Int
  PerInterval : Int
  TokenTimeout : Int
deriving DecidableEq, Repr

/-- Model of the older `NewRateLimiter`: Capacity 30, Interval 5s,
PerInterval 5, TokenTimeout 24h. -/
def NewRateLimiter : RateLimiter :=
  ⟨30, 5 * 1000000000, 5, 24 * 3600 * 1000000000⟩

/-- Model of the older `RateLimiter.UseRaw`: refill via `IncrBy` (capped at
`Capacity`) when a whole interval elapsed, then take one pass via
`DecrBy(identifier, 1, 0)`; rate-limited when the bucket was floored or
negative. -/
def RateLimiter.UseRaw (r : RateLimiter) (mem : apitok.RateLimitMem)
    (identifier : List Nat) (now : Nat) : UseResult × apitok.RateLimitMem :=
  let lm := mem.LastModified identifier
  let since : Int := (now : Int) - (lm : Int)
  let toAdd := (Int.tdiv since r.Interval) * r.PerInterval
  let mem2 :=
    if toAdd > 0 then (mem.IncrByCeil identifier toAdd r.Capacity now).2
    else mem
  let dec := memDecrByFloor mem2 identifier 1 0 now
  if dec.1.2 || dec.1.1 < 0 then (UseResult.RateLimited, dec.2)
  else (UseResult.Success, dec.2)

/-- Model of the older `RateLimiter.Use` (src/api/sig/sig.go lines 179–194):
extract and parse the token, reject a token older than the independent
`TokenTimeout` with the distinct `TokenExpired` result, then fall through to
the bucket check. -/
def RateLimiter.Use (r : RateLimiter) (mem : apitok.RateLimitMem)
    (token secret : List Nat) (now : Nat) : UseResult × apitok.RateLimitMem :=
  match oldsig.Extract token secret with
  | none => (UseResult.TokenInvalid, mem)
  | some d =>
    match jsonUnmarshalTok d with
    | none => (UseResult.TokenInvalid, mem)
    | some tok =>
      if (now : Int) - (tok.TS : Int) > r.TokenTimeout then
        (UseResult.TokenExpired, mem)
      else r.UseRaw mem token now

/-- The older gate's handling of the token-check outcome
(src/unnamed/part_003 `ServeHTTP`): the HTTP status written for each
non-`Success` result (`none` = continue to the wrapped handler). Both
`TokenInvalid` and `TokenExpired` are written as HTTP 400; `RateLimited`
as 420. -/
def gateStatusFor : UseResult → Option Nat
  | UseResult.Success => none
  | UseResult.TokenInvalid => some 400
  | UseResult.TokenExpired => some 400
  | UseResult.RateLimited => some 420

end oldapitok

/-! ## Supporting lemmas -/

theorem b64DecVal_idx : ∀ i, i < 64 → b64DecVal (b64Idx i) = some i := by decide

theorem b64Idx_ne_61 : ∀ i, i < 64 → b64Idx i ≠ 61 := by decide

theorem b64Idx_ne_58_lt : ∀ i, i < 64 → b64Idx i ≠ 58 := by decide

theorem b64Idx_ne_58 (i : Nat) : b64Idx i ≠ 58 := by
  rcases Nat.lt_or_ge i 64 with h | h
  · exact b64Idx_ne_58_lt i h
  · unfold b64Idx
    rw [List.getD_eq_default]
    · decide
    · have : b64Alphabet.length = 64 := by decide
      omega

theorem b64Decode_chunk3 (a b c : Nat) (ha : a < 256) (hb : b < 256) (hc : c < 256)
    (tail : List Nat) :
    b64Decode (b64EncodeChunk [a, b, c] ++ tail) =
      (b64Decode tail).map (fun ds => a :: b :: c :: ds) := by
  have h1 : a / 4 < 64 := by omega
  have h2 : a % 4 * 16 + b / 16 < 64 := by omega
  have h3 : b % 16 * 4 + c / 64 < 64 := by omega
  have h4 : c % 64 < 64 := by omega
  simp only [b64EncodeChunk, List.cons_append, List.nil_append, b64Decode,
    b64DecVal_idx _ h1, b64DecVal_idx _ h2, b64DecVal_idx _ h3, b64DecVal_idx _ h4,
    if_neg (b64Idx_ne_61 _ h3), if_neg (b64Idx_ne_61 _ h4), List.append_eq]
  cases hd : b64Decode tail with
  | none => simp [hd]
  | some ds =>
    simp only [hd, Option.map_some', Option.some.injEq, List.cons.injEq,
      eq_self_iff_true, and_true]
    omega

theorem b64Decode_chunk2 (a b : Nat) (ha : a < 256) (hb : b < 256) :
    b64Decode (b64EncodeChunk [a, b]) = some [a, b] := by
  have h1 : a / 4 < 64 := by omega
  have h2 : a % 4 * 16 + b / 16 < 64 := by omega
  have h3 : b % 16 * 4 < 64 := by omega
  simp only [b64EncodeChunk, b64Decode,
    b64DecVal_idx _ h1, b64DecVal_idx _ h2, b64DecVal_idx _ h3,
    if_neg (b64Idx_ne_61 _ h3)]
  simp only [and_self, if_true, reduceIte, Option.some.injEq, List.cons.injEq, and_true]
  omega

theorem b64Decode_chunk1 (a : Nat) (ha : a < 256) :
    b64Decode (b64EncodeChunk [a]) = some [a] := by
  have h1 : a / 4 < 64 := by omega
  have h2 : a % 4 * 16 < 64 := by omega
  simp only [b64EncodeChunk, b64Decode, b64DecVal_idx _ h1, b64DecVal_idx _ h2]
  simp only [and_self, if_true, reduceIte, Option.some.injEq, List.cons.injEq, and_true]
  omega

theorem b64Decode_b64Encode (l : List Nat) (h : ∀ x ∈ l, x < 256) :
    b64Decode (b64Encode l) = some l := by
  induction l using b64Encode.induct with
  | case1 => rfl
  | case2 a => exact b64Decode_chunk1 a (h a (by simp))
  | case3 a b => exact b64Decode_chunk2 a b (h a (by simp)) (h b (by simp))
  | case4 a b c rest ih =>
    rw [b64Encode, b64Decode_chunk3 a b c (h a (by simp)) (h b (by simp)) (h c (by simp))]
    rw [ih (fun x hx => h x (by simp [hx]))]
    rfl

theorem b64EncodeChunk_ne_58 : ∀ (l : List Nat), ∀ x ∈ b64EncodeChunk l, x ≠ 58
  | [] => by simp [b64EncodeChunk]
  | [a] => by simp [b64EncodeChunk, b64Idx_ne_58]
  | [a, b] => by simp [b64EncodeChunk, b64Idx_ne_58]
  | [a, b, c] => by simp [b64EncodeChunk, b64Idx_ne_58]
  | _ :: _ :: _ :: _ :: _ => by simp [b64EncodeChunk]

theorem b64Encode_ne_58 (l : List Nat) : ∀ x ∈ b64Encode l, x ≠ 58 := by
  induction l using b64Encode.induct with
  | case1 => intro x hx; simp [b64Encode] at hx
  | case2 a => exact b64EncodeChunk_ne_58 [a]
  | case3 a b => exact b64EncodeChunk_ne_58 [a, b]
  | case4 a b c rest ih =>
    intro x hx
    rw [b64Encode] at hx
    rcases List.mem_append.1 hx with h | h
    · exact b64EncodeChunk_ne_58 [a, b, c] x h
    · exact ih x h

theorem splitColon_append (p q : List Nat) (hp : ∀ x ∈ p, x ≠ 58) :
    splitColon (p ++ 58 :: q) = some (p, q) := by
  induction p with
  | nil => simp [splitColon]
  | cons c rest ih =>
    have hc : c ≠ 58 := hp c (by simp)
    simp only [List.cons_append, splitColon, if_neg hc, List.append_eq]
    rw [ih (fun x hx => hp x (by simp [hx]))]

theorem natToBytesLE_lt (k t : Nat) : ∀ x ∈ natToBytesLE k t, x < 256 := by
  induction k generalizing t with
  | zero => intro x hx; simp [natToBytesLE] at hx
  | succ k ih =>
    intro x hx
    rw [natToBytesLE] at hx
    rcases List.mem_cons.1 hx with h | h
    · omega
    · exact ih (t / 256) x h

theorem natToBytesLE_length (k t : Nat) : (natToBytesLE k t).length = k := by
  induction k generalizing t with
  | zero => rfl
  | succ k ih => simp [natToBytesLE, ih]

theorem bytesToNatLE_natToBytesLE (k t : Nat) (ht : t < 256 ^ k) :
    bytesToNatLE (natToBytesLE k t) = t := by
  induction k generalizing t with
  | zero => simp [natToBytesLE, bytesToNatLE]; omega
  | succ k ih =>
    rw [natToBytesLE, bytesToNatLE, ih (t / 256) (by rw [pow_succ] at ht; omega)]
    omega

theorem timeUnmarshal_timeMarshal (t : Nat) (ht : t < 256 ^ 16) :
    timeUnmarshal (timeMarshal t) = some t := by
  rw [timeMarshal, timeUnmarshal, if_pos (natToBytesLE_length 16 t)]
  rw [bytesToNatLE_natToBytesLE 16 t ht]

theorem hmacSha1_lt (secret msg : List Nat) : ∀ x ∈ hmacSha1 secret msg, x < 256 := by
  intro x hx
  rw [hmacSha1] at hx
  rcases List.mem_map.1 hx with ⟨i, _, h⟩
  omega

theorem sig_Extract_parts (data : List Nat) (hdata : ∀ x ∈ data, x < 256)
    (e : Nat) (he : e < 256 ^ 16) (sum64 secret : List Nat) (now2 : Nat) :
    sig.Extract (b64Encode data ++ 58 :: (b64Encode (timeMarshal e) ++ 58 :: sum64))
        secret now2 =
      if e ≠ 0 ∧ now2 > e then none
      else
        match b64Decode sum64 with
        | none => none
        | some sum =>
          if hmacSha1 secret (data ++ timeMarshal e) = sum then some data else none := by
  simp only [sig.Extract, splitColon_append _ _ (b64Encode_ne_58 data),
    b64Decode_b64Encode data hdata,
    splitColon_append _ _ (b64Encode_ne_58 (timeMarshal e)),
    b64Decode_b64Encode (timeMarshal e) (natToBytesLE_lt 16 e),
    timeUnmarshal_timeMarshal e he]

/-- C3: for every payload byte string, every secret, and every positive ttl,
verifying a freshly signed token with the same secret before the ttl has
elapsed succeeds and returns exactly the original payload:
Extract(New(payload, secret, ttl), secret) = payload. -/
theorem C3_sig_roundtrip (data secret : List Nat) (hdata : ∀ x ∈ data, x < 256)
    (timeout : Int) (htimeout : 0 < timeout) (now now2 : Nat)
    (hbound : now + timeout.toNat < 256 ^ 16)
    (hbefore : now2 ≤ now + timeout.toNat) :
    sig.Extract (sig.New data secret timeout now) secret now2 = some data := by
  have hN : sig.New data secret timeout now =
      b64Encode data ++ 58 :: (b64Encode (timeMarshal (now + timeout.toNat)) ++ 58 ::
        b64Encode (hmacSha1 secret (data ++ timeMarshal (now + timeout.toNat)))) := by
    rw [sig.New]
    simp only [if_pos htimeout]
  rw [hN, sig_Extract_parts data hdata _ hbound]
  rw [if_neg (by omega)]
  rw [b64Decode_b64Encode _ (hmacSha1_lt _ _)]
  simp

/-- Witness for C3 at a concrete payload, secret, ttl and clock. -/
theorem C3_witness :
    sig.Extract (sig.New [104, 105] [115] 5 100) [115] 103 = some [104, 105] :=
  C3_sig_roundtrip [104, 105] [115] (by decide) 5 (by decide) 100 103 (by decide)
    (by decide)

namespace apitok

theorem find_filter_ne (l : List (List Nat × keyval)) (key key2 : List Nat)
    (h : key2 ≠ key) :
    (l.filter (fun p => !(p.1 == key))).find? (fun p => p.1 == key2) =
      l.find? (fun p => p.1 == key2) := by
  induction l with
  | nil => rfl
  | cons a l ih =>
    by_cases hak : a.1 = key
    · have h2 : (a.1 == key2) = false := by
        simp [hak]
        exact fun he => h he.symm
      have h3 : (key == key2) = false := by
        simp
        exact fun he => h he.symm
      simp only [List.filter_cons, hak, beq_self_eq_true, Bool.not_true,
        if_neg (by simp : ¬ (false = true)), List.find?_cons, h2, h3, ih]
    · have h2 : (!(a.1 == key)) = true := by simp [hak]
      rw [List.filter_cons, if_pos h2, List.find?_cons, List.find?_cons]
      by_cases hak2 : a.1 = key2
      · simp [hak2]
      · have h3 : (a.1 == key2) = false := by simp [hak2]
        rw [h3, ih]

theorem read_write_self (mem : RateLimitMem) (key : List Nat) (kv : keyval) :
    (mem.write key kv).read key = kv := by
  simp [RateLimitMem.read, RateLimitMem.write, List.find?_cons]

theorem read_write_other (mem : RateLimitMem) (key key2 : List Nat)
    (kv : keyval) (h : key2 ≠ key) :
    (mem.write key kv).read key2 = mem.read key2 := by
  have h2 : (key == key2) = false := by
    simp
    exact fun he => h he.symm
  simp only [RateLimitMem.read, RateLimitMem.write, List.find?_cons, h2]
  rw [find_filter_ne mem.m key key2 h]

theorem canUseRaw_of_pos (r : RateLimiter) (mem : RateLimitMem)
    (identifier : List Nat) (now : Nat)
    (h : 0 < Int.tdiv ((now : Int) - (mem.LastModified identifier : Int))
      r.Interval * r.PerInterval) :
    r.CanUseRaw mem identifier now =
      (if min (mem.Get identifier +
          Int.tdiv ((now : Int) - (mem.LastModified identifier : Int))
            r.Interval * r.PerInterval) r.Capacity ≤ 0
        then UseResult.RateLimited else UseResult.Success,
       mem.write identifier
         ⟨min (mem.Get identifier +
            Int.tdiv ((now : Int) - (mem.LastModified identifier : Int))
              r.Interval * r.PerInterval) r.Capacity, now⟩) := by
  by_cases hmax : (mem.read identifier).val +
      Int.tdiv ((now : Int) - (mem.LastModified identifier : Int))
        r.Interval * r.PerInterval > r.Capacity
  · have hm : min ((mem.read identifier).val +
        Int.tdiv ((now : Int) - (mem.LastModified identifier : Int))
          r.Interval * r.PerInterval) r.Capacity = r.Capacity := by omega
    simp [RateLimiter.CanUseRaw, RateLimitMem.IncrByCeil, RateLimitMem.Get, h,
      hmax, hm]
    split <;> rfl
  · have hm : min ((mem.read identifier).val +
        Int.tdiv ((now : Int) - (mem.LastModified identifier : Int))
          r.Interval * r.PerInterval) r.Capacity =
        (mem.read identifier).val +
          Int.tdiv ((now : Int) - (mem.LastModified identifier : Int))
            r.Interval * r.PerInterval := by omega
    simp [RateLimiter.CanUseRaw, RateLimitMem.IncrByCeil, RateLimitMem.Get, h,
      hmax, hm]
    split <;> rfl

theorem canUseRaw_of_nonpos (r : RateLimiter) (mem : RateLimitMem)
    (identifier : List Nat) (now : Nat)
    (h : Int.tdiv ((now : Int) - (mem.LastModified identifier : Int))
      r.Interval * r.PerInterval ≤ 0) :
    r.CanUseRaw mem identifier now =
      (if mem.Get identifier ≤ 0 then UseResult.RateLimited
        else UseResult.Success, mem) := by
  simp [RateLimiter.CanUseRaw, RateLimitMem.Get,
    show ¬ (0 < Int.tdiv ((now : Int) - (mem.LastModified identifier : Int))
      r.Interval * r.PerInterval) by omega]
  split <;> rfl

end apitok

/-- C4: for every token whose signature verification fails, the
token-qualified RateLimiter.CanUse(token, secret) returns TokenInvalid with
the store untouched and without consulting it (the result is the same for
every store state), so TokenInvalid takes precedence over RateLimited. -/
theorem C4_invalid_token_short_circuits (r : apitok.RateLimiter)
    (mem : apitok.RateLimitMem) (token secret : List Nat) (now : Nat)
    (hv : sig.Verify token secret now = false) :
    r.CanUse mem token secret now = (apitok.UseResult.TokenInvalid, mem) := by
  simp [apitok.RateLimiter.CanUse, hv]

/-- Witness for C4 on a malformed token against a non-empty store. -/
theorem C4_witness :
    sig.Verify [120] [115] 7 = false ∧
    apitok.RateLimiter.CanUse apitok.NewRateLimiter ⟨[([120], ⟨-3, 2⟩)]⟩ [120] [115] 7 =
      (apitok.UseResult.TokenInvalid, ⟨[([120], ⟨-3, 2⟩)]⟩) :=
  ⟨by decide,
    C4_invalid_token_short_circuits apitok.NewRateLimiter ⟨[([120], ⟨-3, 2⟩)]⟩
      [120] [115] 7 (by decide)⟩

/-- C6: CanUseRaw computes ticksElapsed = floor(elapsed / Interval); when
ticksElapsed > 0 it refills the bucket by ticksElapsed * PerInterval capped at
Capacity and stamps lastModified, touching no other key; otherwise it leaves
the store untouched (in particular lastModified); it returns RateLimited
exactly when the resulting value is <= 0 and Success otherwise. -/
theorem C6_canUseRaw_semantics (r : apitok.RateLimiter)
    (mem : apitok.RateLimitMem) (identifier : List Nat) (now : Nat)
    (hI : 0 < r.Interval) (hP : 0 < r.PerInterval)
    (hlm : mem.LastModified identifier ≤ now) :
    (0 < Int.tdiv ((now : Int) - (mem.LastModified identifier : Int)) r.Interval →
      (r.CanUseRaw mem identifier now).2.Get identifier =
        min (mem.Get identifier +
          Int.tdiv ((now : Int) - (mem.LastModified identifier : Int)) r.Interval *
            r.PerInterval) r.Capacity ∧
      (r.CanUseRaw mem identifier now).2.LastModified identifier = now ∧
      (∀ key, key ≠ identifier →
        (r.CanUseRaw mem identifier now).2.read key = mem.read key)) ∧
    (Int.tdiv ((now : Int) - (mem.LastModified identifier : Int)) r.Interval = 0 →
      (r.CanUseRaw mem identifier now).2 = mem) ∧
    ((r.CanUseRaw mem identifier now).1 = apitok.UseResult.RateLimited ↔
      (r.CanUseRaw mem identifier now).2.Get identifier ≤ 0) ∧
    ((r.CanUseRaw mem identifier now).1 = apitok.UseResult.Success ↔
      0 < (r.CanUseRaw mem identifier now).2.Get identifier) := by
  have hsince : 0 ≤ (now : Int) - (mem.LastModified identifier : Int) := by
    omega
  have hticks : 0 ≤ Int.tdiv ((now : Int) - (mem.LastModified identifier : Int))
      r.Interval := Int.tdiv_nonneg hsince (le_of_lt hI)
  rcases eq_or_lt_of_le hticks with hz | hpos
  · have hadd : Int.tdiv ((now : Int) - (mem.LastModified identifier : Int))
        r.Interval * r.PerInterval ≤ 0 := by rw [← hz]; simp
    rw [apitok.canUseRaw_of_nonpos r mem identifier now hadd]
    refine ⟨fun hc => absurd hc (by omega), fun _ => rfl, ?_, ?_⟩
    · by_cases hc : mem.Get identifier ≤ 0 <;> simp [hc]
    · by_cases hc : mem.Get identifier ≤ 0 <;> simp [hc] <;> omega
  · have hadd : 0 < Int.tdiv ((now : Int) - (mem.LastModified identifier : Int))
        r.Interval * r.PerInterval := mul_pos hpos hP
    rw [apitok.canUseRaw_of_pos r mem identifier now hadd]
    refine ⟨fun _ => ?_, fun hc => absurd hc (by omega), ?_, ?_⟩
    · refine ⟨?_, ?_, ?_⟩
      · by_cases hc : min (mem.Get identifier +
            Int.tdiv ((now : Int) - (mem.LastModified identifier : Int)) r.Interval *
              r.PerInterval) r.Capacity ≤ 0 <;>
          simp [hc, apitok.RateLimitMem.Get, apitok.read_write_self]
      · by_cases hc : min (mem.Get identifier +
            Int.tdiv ((now : Int) - (mem.LastModified identifier : Int)) r.Interval *
              r.PerInterval) r.Capacity ≤ 0 <;>
          simp [hc, apitok.RateLimitMem.LastModified, apitok.read_write_self]
      · intro key hk
        by_cases hc : min (mem.Get identifier +
            Int.tdiv ((now : Int) - (mem.LastModified identifier : Int)) r.Interval *
              r.PerInterval) r.Capacity ≤ 0 <;>
          simp [hc, apitok.read_write_other _ _ _ _ hk]
    · by_cases hc : min (mem.Get identifier +
          Int.tdiv ((now : Int) - (mem.LastModified identifier : Int)) r.Interval *
            r.PerInterval) r.Capacity ≤ 0 <;>
        simp [hc, apitok.RateLimitMem.Get, apitok.read_write_self] <;> omega
    · by_cases hc : min (mem.Get identifier +
          Int.tdiv ((now : Int) - (mem.LastModified identifier : Int)) r.Interval *
            r.PerInterval) r.Capacity ≤ 0 <;>
        simp [hc, apitok.RateLimitMem.Get, apitok.read_write_self] <;> omega

/-- Witness for C6: a bucket holding 3 units refilled by two elapsed ticks
of 5 is at 13 and usable. -/
theorem C6_witness :
    (apitok.RateLimiter.CanUseRaw ⟨30, 5, 5⟩ ⟨[([97], ⟨3, 2⟩)]⟩ [97] 12).1 =
        apitok.UseResult.Success ∧
    (apitok.RateLimiter.CanUseRaw ⟨30, 5, 5⟩ ⟨[([97], ⟨3, 2⟩)]⟩ [97] 12).2.Get [97] = 13 := by
  have h := C6_canUseRaw_semantics ⟨30, 5, 5⟩ ⟨[([97], ⟨3, 2⟩)]⟩ [97] 12
      (by decide) (by decide) (by decide)
  exact ⟨h.2.2.2.mpr (by decide), by decide⟩

/-- C7: Use unconditionally subtracts the consumed duration from the
identifier's bucket (the value may become negative debt); while the value even
after a refill stays <= 0, CanUseRaw returns RateLimited and the bucket stays
non-positive, and once refills push it positive it returns Success. -/
theorem C7_use_debt (r : apitok.RateLimiter) (mem : apitok.RateLimitMem)
    (identifier : List Nat) (toRemove : Int) (now : Nat)
    (hI : 0 < r.Interval) (hP : 0 < r.PerInterval) :
    (r.Use mem identifier toRemove now).Get identifier =
        mem.Get identifier - toRemove ∧
    (∀ (mem2 : apitok.RateLimitMem) (now2 : Nat),
      mem2.LastModified identifier ≤ now2 →
      mem2.Get identifier +
          Int.tdiv ((now2 : Int) - (mem2.LastModified identifier : Int)) r.Interval *
            r.PerInterval ≤ 0 →
      (r.CanUseRaw mem2 identifier now2).1 = apitok.UseResult.RateLimited ∧
      (r.CanUseRaw mem2 identifier now2).2.Get identifier ≤ 0) ∧
    (∀ (mem2 : apitok.RateLimitMem) (now2 : Nat),
      mem2.LastModified identifier ≤ now2 →
      0 < r.Capacity →
      mem2.Get identifier ≤ 0 →
      0 < mem2.Get identifier +
          Int.tdiv ((now2 : Int) - (mem2.LastModified identifier : Int)) r.Interval *
            r.PerInterval →
      (r.CanUseRaw mem2 identifier now2).1 = apitok.UseResult.Success) := by
  refine ⟨?_, ?_, ?_⟩
  · simp [apitok.RateLimiter.Use, apitok.RateLimitMem.DecrBy, apitok.RateLimitMem.Get,
      apitok.read_write_self]
  · intro mem2 now2 hlm2 hdebt
    have hsince : 0 ≤ (now2 : Int) - (mem2.LastModified identifier : Int) := by omega
    have hticks : 0 ≤ Int.tdiv ((now2 : Int) - (mem2.LastModified identifier : Int))
        r.Interval := Int.tdiv_nonneg hsince (le_of_lt hI)
    rcases eq_or_lt_of_le hticks with hz | hpos
    · have hadd : Int.tdiv ((now2 : Int) - (mem2.LastModified identifier : Int))
          r.Interval * r.PerInterval ≤ 0 := by rw [← hz]; simp
      rw [apitok.canUseRaw_of_nonpos r mem2 identifier now2 hadd]
      have hg : mem2.Get identifier ≤ 0 := by
        have hz2 : Int.tdiv ((now2 : Int) - (mem2.LastModified identifier : Int))
            r.Interval * r.PerInterval = 0 := by rw [← hz]; simp
        omega
      simp [hg]
    · have hadd : 0 < Int.tdiv ((now2 : Int) - (mem2.LastModified identifier : Int))
          r.Interval * r.PerInterval := mul_pos hpos hP
      have hmin : min (mem2.Get identifier +
          Int.tdiv ((now2 : Int) - (mem2.LastModified identifier : Int)) r.Interval *
            r.PerInterval) r.Capacity ≤ 0 := by omega
      rw [apitok.canUseRaw_of_pos r mem2 identifier now2 hadd, if_pos hmin]
      refine ⟨rfl, ?_⟩
      simp only [apitok.RateLimitMem.Get, apitok.read_write_self]
      exact hmin
  · intro mem2 now2 hlm2 hC hg hpaid
    have hsince : 0 ≤ (now2 : Int) - (mem2.LastModified identifier : Int) := by omega
    have hticks : 0 ≤ Int.tdiv ((now2 : Int) - (mem2.LastModified identifier : Int))
        r.Interval := Int.tdiv_nonneg hsince (le_of_lt hI)
    have hadd : 0 < Int.tdiv ((now2 : Int) - (mem2.LastModified identifier : Int))
        r.Interval * r.PerInterval := by
      rcases eq_or_lt_of_le hticks with hz | hpos
      · exfalso
        have hz2 : Int.tdiv ((now2 : Int) - (mem2.LastModified identifier : Int))
            r.Interval * r.PerInterval = 0 := by rw [← hz]; simp
        omega
      · exact mul_pos hpos hP
    have hmin : ¬ (min (mem2.Get identifier +
        Int.tdiv ((now2 : Int) - (mem2.LastModified identifier : Int)) r.Interval *
          r.PerInterval) r.Capacity ≤ 0) := by omega
    rw [apitok.canUseRaw_of_pos r mem2 identifier now2 hadd, if_neg hmin]

/-- Witness for C7: a charge of 7 against an empty bucket leaves -7; the
bucket stays rate-limited one second later and recovers after two refill
intervals. -/
theorem C7_witness :
    (apitok.RateLimiter.Use ⟨30, 5, 5⟩ apitok.NewRateLimitMem [97] 7 3).Get [97] = -7 ∧
    (apitok.RateLimiter.CanUseRaw ⟨30, 5, 5⟩ ⟨[([97], ⟨-7, 3⟩)]⟩ [97] 4).1 =
      apitok.UseResult.RateLimited ∧
    (apitok.RateLimiter.CanUseRaw ⟨30, 5, 5⟩ ⟨[([97], ⟨-7, 3⟩)]⟩ [97] 13).1 =
      apitok.UseResult.Success := by
  have h := C7_use_debt ⟨30, 5, 5⟩ apitok.NewRateLimitMem [97] 7 3 (by decide) (by decide)
  exact ⟨h.1.trans (by decide),
    (h.2.1 ⟨[([97], ⟨-7, 3⟩)]⟩ 4 (by decide) (by decide)).1,
    h.2.2 ⟨[([97], ⟨-7, 3⟩)]⟩ 13 (by decide) (by decide) (by decide) (by decide)⟩

/-- C10 counterexample: Capacity 30, Interval 5, PerInterval 5, a never
seen key (zero LastModified), elapsed exactly one Interval: the first
CanUseRaw returns Success but leaves the bucket at 5, not at Capacity. -/
theorem C10_counterexample :
    (0 : Int) < (30 : Int) ∧ (0 : Int) < (5 : Int) ∧
    apitok.NewRateLimitMem.LastModified [97] = 0 ∧
    (5 : Int) ≤ ((5 : Nat) : Int) ∧
    (apitok.RateLimiter.CanUseRaw ⟨30, 5, 5⟩ apitok.NewRateLimitMem [97] 5).1 =
      apitok.UseResult.Success ∧
    (apitok.RateLimiter.CanUseRaw ⟨30, 5, 5⟩ apitok.NewRateLimitMem [97] 5).2.Get [97] = 5 ∧
    ((5 : Int) = (30 : Int) → False) := by decide

/-- C10 (amended): for a never-seen identifier (zero stored keyval) with
positive Capacity, Interval and PerInterval and at least one Interval on the
clock, the first CanUseRaw returns Success and leaves the bucket at
min(ticksElapsed * PerInterval, Capacity) - which is exactly Capacity
whenever ticksElapsed * PerInterval reaches Capacity, as it always does for a
realistic wall clock. -/
theorem C10_fresh_key_full_budget (r : apitok.RateLimiter)
    (mem : apitok.RateLimitMem) (identifier : List Nat) (now : Nat)
    (hC : 0 < r.Capacity) (hI : 0 < r.Interval) (hP : 0 < r.PerInterval)
    (hfresh : mem.read identifier = ⟨0, 0⟩)
    (helapsed : r.Interval ≤ (now : Int)) :
    (r.CanUseRaw mem identifier now).1 = apitok.UseResult.Success ∧
    (r.CanUseRaw mem identifier now).2.Get identifier =
      min (Int.tdiv (now : Int) r.Interval * r.PerInterval) r.Capacity ∧
    (r.Capacity ≤ Int.tdiv (now : Int) r.Interval * r.PerInterval →
      (r.CanUseRaw mem identifier now).2.Get identifier = r.Capacity) := by
  have hlm : mem.LastModified identifier = 0 := by
    rw [apitok.RateLimitMem.LastModified, hfresh]
  have hG : mem.Get identifier = 0 := by
    rw [apitok.RateLimitMem.Get, hfresh]
  have hsub : (now : Int) - (mem.LastModified identifier : Int) = (now : Int) := by
    rw [hlm]; simp
  have hnow : 0 ≤ (now : Int) := by omega
  have hticks1 : 1 ≤ Int.tdiv (now : Int) r.Interval := by
    rw [Int.tdiv_eq_ediv hnow (le_of_lt hI), Int.le_ediv_iff_mul_le hI]
    omega
  have hadd0 : r.PerInterval ≤ Int.tdiv (now : Int) r.Interval * r.PerInterval :=
    le_mul_of_one_le_left (le_of_lt hP) hticks1
  have hadd : 0 < Int.tdiv ((now : Int) - (mem.LastModified identifier : Int))
      r.Interval * r.PerInterval := by
    rw [hsub]; omega
  have heq := apitok.canUseRaw_of_pos r mem identifier now hadd
  rw [hsub, hG] at heq
  have hmin : ¬ (min (0 + Int.tdiv (now : Int) r.Interval * r.PerInterval)
      r.Capacity ≤ 0) := by omega
  rw [heq, if_neg hmin]
  refine ⟨rfl, ?_, ?_⟩
  · simp only [apitok.RateLimitMem.Get, apitok.read_write_self]
    omega
  · intro hcap
    simp only [apitok.RateLimitMem.Get, apitok.read_write_self]
    omega

/-- Witness for the amended C10: after 7 elapsed intervals the refill
35 is clamped and a fresh bucket opens at full Capacity 30. -/
theorem C10_witness :
    (apitok.RateLimiter.CanUseRaw ⟨30, 5, 5⟩ apitok.NewRateLimitMem [97] 35).1 =
        apitok.UseResult.Success ∧
    (apitok.RateLimiter.CanUseRaw ⟨30, 5, 5⟩ apitok.NewRateLimitMem [97] 35).2.Get [97] = 30 := by
  have h := C10_fresh_key_full_budget ⟨30, 5, 5⟩ apitok.NewRateLimitMem [97] 35
    (by decide) (by decide) (by decide) (by decide) (by decide)
  exact ⟨h.1, h.2.2 (by decide)⟩

/-- C5: signing with ttl <= 0 produces an envelope with the zero (none)
expiry that verifies successfully at any later time, and any envelope whose
non-zero expiry lies in the past is rejected by Extract regardless of what
stands in the signature segment. -/
theorem C5_expiry_semantics :
    (∀ (data secret : List Nat), (∀ x ∈ data, x < 256) → ∀ (timeout : Int),
      timeout ≤ 0 → ∀ (now now2 : Nat),
        sig.Extract (sig.New data secret timeout now) secret now2 = some data) ∧
    (∀ (data secret tail : List Nat), (∀ x ∈ data, x < 256) → ∀ (e now2 : Nat),
      0 < e → e < 256 ^ 16 → e < now2 →
      sig.Extract (b64Encode data ++ 58 :: (b64Encode (timeMarshal e) ++ 58 :: tail))
        secret now2 = none) := by
  constructor
  · intro data secret hdata timeout ht now now2
    have hN : sig.New data secret timeout now =
        b64Encode data ++ 58 :: (b64Encode (timeMarshal 0) ++ 58 ::
          b64Encode (hmacSha1 secret (data ++ timeMarshal 0))) := by
      rw [sig.New]
      simp only [if_neg (by omega : ¬ timeout > 0)]
    rw [hN, sig_Extract_parts data hdata 0 (by norm_num)]
    rw [if_neg (by omega)]
    rw [b64Decode_b64Encode _ (hmacSha1_lt _ _)]
    simp
  · intro data secret tail hdata e now2 he hbound hpast
    rw [sig_Extract_parts data hdata e hbound]
    rw [if_pos ⟨by omega, by omega⟩]

/-- Witness for C5: a ttl-0 token verified far in the future, and a
past-expiry envelope with a garbage signature segment rejected. -/
theorem C5_witness :
    sig.Extract (sig.New [104] [115] 0 100) [115] 999999999 = some [104] ∧
    sig.Extract (b64Encode [104] ++ 58 :: (b64Encode (timeMarshal 50) ++ 58 :: [65]))
      [115] 100 = none :=
  ⟨C5_expiry_semantics.1 [104] [115] (by decide) 0 (by decide) 100 999999999,
   C5_expiry_semantics.2 [104] [115] [65] (by decide) 50 100 (by decide) (by decide)
     (by decide)⟩

/-- C1 counterexample: flags Default (api token required), no Secret, a
plain GET: the gate invokes the wrapped handler (no quota check, no charge)
instead of rejecting with SecretNotSet. -/
theorem C1_counterexample :
    auth.ServeHTTP 0 none apitok.NewRateLimiter apitok.NewRateLimitMem
        ⟨"GET", [49, 58, 50], [], [], []⟩ 100 =
      auth.GateStep.allow none [] ⟨"GET", [49, 58, 50], [], [], []⟩
        apitok.NewRateLimitMem := by decide

/-- C1 (amended): on an endpoint that is not IP-rate-limited and does not
waive the api token, if no Secret is configured the gate silently skips the
token/rate-limit check; it responds with the fixed SecretNotSet error
(HTTP 500) only when the endpoint requires user auth for the request's
method, and otherwise invokes the wrapped handler with no check and no
post-charge. -/
theorem C1_secret_unset (flags : Nat) (rl : apitok.RateLimiter)
    (mem : apitok.RateLimitMem) (r : auth.Request) (now : Nat)
    (hip : flags &&& auth.IPRateLimited = 0)
    (_hnoapi : flags &&& auth.NoAPITokenRequired = 0) :
    auth.ServeHTTP flags none rl mem r now =
      (if auth.requiresUserAuth flags r.Method then
        auth.GateStep.reject auth.ErrSecretNotSet mem
      else auth.GateStep.allow none [] r mem) := by
  rw [auth.ServeHTTP]
  simp only [hip]
  rw [auth.afterQuota, auth.authdUser]
  simp

/-- Witness for the amended C1: a POST on a RequireUserAuthPost endpoint
with no Secret is rejected with SecretNotSet. -/
theorem C1_witness :
    auth.ServeHTTP auth.RequireUserAuthPost none apitok.NewRateLimiter
        apitok.NewRateLimitMem ⟨"POST", [49, 58, 50], [], [], []⟩ 100 =
      auth.GateStep.reject auth.ErrSecretNotSet apitok.NewRateLimitMem := by
  have h := C1_secret_unset auth.RequireUserAuthPost apitok.NewRateLimiter
    apitok.NewRateLimitMem ⟨"POST", [49, 58, 50], [], [], []⟩ 100 (by decide)
    (by decide)
  rw [h]
  decide

/-- C2 (code bug): on an IPRateLimited endpoint with RemoteAddr
"1.2.3.4:56" the quota step checks the bucket of "1.2.3.4" (port stripped)
but the admitted request's charge key is the full "1.2.3.4:56"; after the
post-charge the checked bucket is unchanged and the debt sits in a bucket the
check never consults. -/
theorem C2_ip_check_charge_mismatch :
    auth.ServeHTTP auth.IPRateLimited (some [115]) apitok.NewRateLimiter
        apitok.NewRateLimitMem
        ⟨"GET", [49, 46, 50, 46, 51, 46, 52, 58, 53, 54], [], [], []⟩ 10000000000 =
      auth.GateStep.allow (some [49, 46, 50, 46, 51, 46, 52])
        [49, 46, 50, 46, 51, 46, 52, 58, 53, 54]
        ⟨"GET", [49, 46, 50, 46, 51, 46, 52, 58, 53, 54], [], [], []⟩
        ⟨[([49, 46, 50, 46, 51, 46, 52], ⟨10000000000, 10000000000⟩)]⟩ ∧
    ([49, 46, 50, 46, 51, 46, 52] : List Nat) ≠
      [49, 46, 50, 46, 51, 46, 52, 58, 53, 54] ∧
    (auth.postCharge apitok.NewRateLimiter
        (auth.GateStep.allow (some [49, 46, 50, 46, 51, 46, 52])
          [49, 46, 50, 46, 51, 46, 52, 58, 53, 54]
          ⟨"GET", [49, 46, 50, 46, 51, 46, 52, 58, 53, 54], [], [], []⟩
          ⟨[([49, 46, 50, 46, 51, 46, 52], ⟨10000000000, 10000000000⟩)]⟩)
        7000000000 17000000000).Get [49, 46, 50, 46, 51, 46, 52] = 10000000000 ∧
    (auth.postCharge apitok.NewRateLimiter
        (auth.GateStep.allow (some [49, 46, 50, 46, 51, 46, 52])
          [49, 46, 50, 46, 51, 46, 52, 58, 53, 54]
          ⟨"GET", [49, 46, 50, 46, 51, 46, 52, 58, 53, 54], [], [], []⟩
          ⟨[([49, 46, 50, 46, 51, 46, 52], ⟨10000000000, 10000000000⟩)]⟩)
        7000000000 17000000000).Get [49, 46, 50, 46, 51, 46, 52, 58, 53, 54] =
      -7000000000 := by decide

theorem queryValues_add (q : List (String × List (List Nat))) (key : String)
    (v : List Nat) :
    auth.queryValues (auth.queryAdd q key v) key =
      auth.queryValues q key ++ [v] := by
  induction q with
  | nil => simp [auth.queryAdd, auth.queryValues, List.find?_cons]
  | cons p rest ih =>
    by_cases hk : p.1 = key
    · simp [auth.queryAdd, auth.queryValues, List.find?_cons, hk]
    · have h2 : (p.1 == key) = false := by simp [hk]
      simp only [auth.queryAdd, auth.queryValues, List.find?_cons] at *
      rw [if_neg hk]
      simp only [List.find?_cons, h2]
      exact ih

/-- C9: when the gate resolves a verified username it appends it as an
additional value of the _asUser query parameter, removing nothing: the
forwarded value list for _asUser is the client-supplied list with the
verified username appended after it. -/
theorem C9_asUser_appended (flags : Nat) (secret : Option (List Nat))
    (checked : Option (List Nat)) (token : List Nat) (r : auth.Request)
    (mem : apitok.RateLimitMem) (now : Nat) (user : List Nat)
    (hok : auth.authdUser secret r now = Except.ok user) :
    auth.afterQuota flags secret checked token r mem now =
      auth.GateStep.allow checked token
        { r with query := auth.queryAdd r.query "_asUser" user } mem ∧
    auth.queryValues (auth.queryAdd r.query "_asUser" user) "_asUser" =
      auth.queryValues r.query "_asUser" ++ [user] := by
  constructor
  · rw [auth.afterQuota, hok]
  · exact queryValues_add r.query "_asUser" user

set_option maxRecDepth 40000 in
/-- Witness for C9: a request already carrying a client-supplied _asUser
value and a valid user token; the handler sees both values, client one
first. -/
theorem C9_witness :
    auth.afterQuota 0 (some [115]) none []
        ⟨"GET", [], [],
          usertok.New [117] [115]
            [0, 1, 2, 3, 4, 5, 6, 7, 8, 9, 10, 11, 12, 13, 14, 15] 50,
          [("_asUser", [[99]])]⟩ apitok.NewRateLimitMem 60 =
      auth.GateStep.allow none []
        { (⟨"GET", [], [],
            usertok.New [117] [115]
              [0, 1, 2, 3, 4, 5, 6, 7, 8, 9, 10, 11, 12, 13, 14, 15] 50,
            [("_asUser", [[99]])]⟩ : auth.Request) with
          query := auth.queryAdd [("_asUser", [[99]])] "_asUser" [117] }
        apitok.NewRateLimitMem ∧
    auth.queryValues (auth.queryAdd [("_asUser", [[99]])] "_asUser" [117]) "_asUser" =
      auth.queryValues [("_asUser", [[99]])] "_asUser" ++ [[117]] :=
  C9_asUser_appended 0 (some [115]) none []
    ⟨"GET", [], [],
      usertok.New [117] [115]
        [0, 1, 2, 3, 4, 5, 6, 7, 8, 9, 10, 11, 12, 13, 14, 15] 50,
      [("_asUser", [[99]])]⟩ apitok.NewRateLimitMem 60 [117] rfl

theorem jsonMarshalTok_lt (d : oldapitok.apiTokData) :
    ∀ x ∈ oldapitok.jsonMarshalTok d, x < 256 := by
  intro x hx
  rw [oldapitok.jsonMarshalTok] at hx
  rcases List.mem_append.1 hx with h | h
  · exact natToBytesLE_lt 16 d.UUID x h
  · exact natToBytesLE_lt 16 d.TS x h

theorem oldsig_Extract_New (data secret : List Nat)
    (hdata : ∀ x ∈ data, x < 256) :
    oldsig.Extract (oldsig.New data secret) secret = some data := by
  rw [oldsig.New, oldsig.Extract]
  simp only [splitColon_append _ _ (b64Encode_ne_58 data),
    b64Decode_b64Encode data hdata,
    b64Decode_b64Encode _ (hmacSha1_lt secret data)]
  simp

theorem jsonUnmarshalTok_jsonMarshalTok (d : oldapitok.apiTokData)
    (h1 : d.UUID < 256 ^ 16) (h2 : d.TS < 256 ^ 16) :
    oldapitok.jsonUnmarshalTok (oldapitok.jsonMarshalTok d) = some d := by
  rw [oldapitok.jsonMarshalTok, oldapitok.jsonUnmarshalTok]
  have hl1 : (natToBytesLE 16 d.UUID).length = 16 := natToBytesLE_length 16 d.UUID
  have hl2 : (natToBytesLE 16 d.TS).length = 16 := natToBytesLE_length 16 d.TS
  rw [if_pos (by simp [hl1, hl2])]
  have ht : (natToBytesLE 16 d.UUID ++ natToBytesLE 16 d.TS).take 16 =
      natToBytesLE 16 d.UUID := by
    rw [← hl1]
    exact List.take_left _ _
  have hd : (natToBytesLE 16 d.UUID ++ natToBytesLE 16 d.TS).drop 16 =
      natToBytesLE 16 d.TS := by
    rw [← hl1]
    exact List.drop_left _ _
  rw [ht, hd, bytesToNatLE_natToBytesLE 16 _ h1, bytesToNatLE_natToBytesLE 16 _ h2]

/-- C8: the older api revision's rate limiter carries a TokenTimeout
max-age independent of the envelope expiry, and a structurally valid token
older than it is rejected with the distinct TokenExpired result, which the
older gate writes as HTTP 400. -/
theorem C8_token_timeout (r : oldapitok.RateLimiter) (mem : apitok.RateLimitMem)
    (secret : List Nat) (d : oldapitok.apiTokData) (now : Nat)
    (hUUID : d.UUID < 256 ^ 16) (hTS : d.TS < 256 ^ 16)
    (hold : (now : Int) - (d.TS : Int) > r.TokenTimeout) :
    r.Use mem (oldsig.New (oldapitok.jsonMarshalTok d) secret) secret now =
      (oldapitok.UseResult.TokenExpired, mem) ∧
    oldapitok.gateStatusFor oldapitok.UseResult.TokenExpired = some 400 ∧
    (oldapitok.UseResult.TokenExpired = oldapitok.UseResult.TokenInvalid → False) ∧
    (oldapitok.UseResult.TokenExpired = oldapitok.UseResult.RateLimited → False) := by
  refine ⟨?_, rfl, by decide, by decide⟩
  rw [oldapitok.RateLimiter.Use]
  simp only [oldsig_Extract_New _ secret (jsonMarshalTok_lt d),
    jsonUnmarshalTok_jsonMarshalTok d hUUID hTS]
  rw [if_pos hold]

/-- Witness for C8: a well-formed token issued at time 0 checked after the
24h default TokenTimeout. -/
theorem C8_witness :
    oldapitok.RateLimiter.Use oldapitok.NewRateLimiter apitok.NewRateLimitMem
        (oldsig.New (oldapitok.jsonMarshalTok ⟨7, 0⟩) [115]) [115] 90000000000000 =
      (oldapitok.UseResult.TokenExpired, apitok.NewRateLimitMem) :=
  (C8_token_timeout oldapitok.NewRateLimiter apitok.NewRateLimitMem [115] ⟨7, 0⟩
    90000000000000 (by decide) (by decide) (by decide)).1
